import Mathlib

/- Verification development for the KasperWebsiteBuilder backend.

We give a shallow embedding of the two core subsystems of the repository:

1. the generation pipeline and job tracker (server.js: POST /start-generation,
   doWebsiteGeneration, the in-memory progressMap), and
2. the deposit reconciler (services/depositService.js:
   processUserKasperDeposits, processUserKaspaDeposits,
   fetchAndProcessUserDeposits; backend/services/depositService.js:
   scanDeposits).

External collaborators (OpenAI, the chain indexers, MongoDB) are modelled as
explicit inputs: transaction feeds are lists, each fallible network call is an
Except value, and the account document is threaded through explicitly.
JavaScript numbers are modelled as rationals, JavaScript strings as Lean
strings (lists of characters). -/

namespace KasperBuilder

/- Section 1: string machinery.

The pipeline performs global regex substitution
(siteCode.replace(new RegExp(phKey, "g"), base64Uri)), strips code fences
(a global replace of runs of three or more backquote characters by the empty
string) and trims the GPT response.  We implement the exact left-to-right,
non-overlapping global-substitution semantics of String.prototype.replace
with a global regex whose pattern is a literal string (the two placeholder
tokens contain no regex metacharacters).  The scan functions carry a fuel
argument so that they are structurally recursive; fuel equal to the length
of the subject string is always sufficient because every step consumes at
least one character. -/

def isPrefixL : List Char → List Char → Bool
  | [], _ => true
  | _ :: _, [] => false
  | a :: p, b :: s => if a = b then isPrefixL p s else false

def occursL (pat : List Char) : List Char → Bool
  | [] => pat.isEmpty
  | c :: t => isPrefixL pat (c :: t) || occursL pat t

def replaceScan (pat repl : List Char) : Nat → List Char → List Char
  | _, [] => []
  | 0, s => s
  | fuel + 1, c :: t =>
    if isPrefixL pat (c :: t) then
      repl ++ replaceScan pat repl fuel ((c :: t).drop pat.length)
    else
      c :: replaceScan pat repl fuel t

def replaceAllL (s pat repl : List Char) : List Char :=
  replaceScan pat repl s.length s

def replaceAllS (s pat repl : String) : String :=
  String.mk (replaceAllL s.data pat.data repl.data)

/- Backquote character (code point 96), the code-fence character of the
regex in siteCode.replace applied after placeholder substitution. -/
def fenceChar : Char := Char.ofNat 96

def fenceScan : Nat → List Char → List Char
  | _, [] => []
  | 0, s => s
  | fuel + 1, c :: t =>
    if c = fenceChar ∧ isPrefixL [fenceChar, fenceChar] t then
      fenceScan fuel (t.dropWhile (fun d => d = fenceChar))
    else
      c :: fenceScan fuel t

def stripFencesL (s : List Char) : List Char :=
  fenceScan s.length s

def stripFencesS (s : String) : String :=
  String.mk (stripFencesL s.data)

def jsTrimL (s : List Char) : List Char :=
  ((s.dropWhile Char.isWhitespace).reverse.dropWhile Char.isWhitespace).reverse

def jsTrimS (s : String) : String :=
  String.mk (jsTrimL s.data)

def occursS (pat s : String) : Bool :=
  occursL pat.data s.data

/- Model of String.prototype.toLowerCase restricted to the ASCII strings
the adapters compare (operation names and currency tags). -/
def jsToLower (s : String) : String :=
  String.mk (s.data.map Char.toLower)

/- Decidable side conditions under which a global substitution of pat by
repl cannot leave or recreate an occurrence of a pattern.  properSuffixOkL
rules out a match that begins inside an inserted replacement and extends past
its end; noReentryL rules out a match that begins before an inserted
replacement and continues into or across it. -/

def properSuffixOkL (p u : List Char) : Bool :=
  u.tails.all (fun x => x.isEmpty || !(isPrefixL x p) || x.length == p.length)

def noReentryL (p u : List Char) : Bool :=
  (List.range p.length).all
    (fun j => j == 0 || (!(isPrefixL (p.drop j) u) && !(isPrefixL u (p.drop j))))

def safeReplL (p u : List Char) : Bool :=
  !(occursL p u) && properSuffixOkL p u && noReentryL p u

def safeReplS (p u : String) : Bool :=
  safeReplL p.data u.data

def fenceFreeL (s : List Char) : Bool :=
  s.all (fun c => decide (c ≠ fenceChar))

def fenceFreeS (s : String) : Bool :=
  fenceFreeL s.data

/- Section 2: job tracker and generation pipeline (server.js).

A progressMap entry is created by POST /start-generation as
status "in-progress", progress 0, code null, and is mutated only by the
owning doWebsiteGeneration run.  We record every value assigned to the
progress field in a trace list (the values a poller of GET /progress can
observe), seeded with the initial 0. -/

inductive JobStatus
  | inProgress
  | done
  | error
deriving DecidableEq, Repr

structure JobState where
  status : JobStatus
  progress : Nat
  code : Option String
  trace : List Nat
deriving DecidableEq, Repr

def initialJob : JobState :=
  { status := JobStatus.inProgress, progress := 0, code := none, trace := [0] }

def setProgress (st : JobState) (p : Nat) : JobState :=
  { st with progress := p, trace := st.trace ++ [p] }

/- Model of the catch block of doWebsiteGeneration: it sets status "error"
and progress 100 and leaves the code field as it was. -/
def markFailed (st : JobState) : JobState :=
  { setProgress st 100 with status := JobStatus.error }

structure UserInputs where
  coinName : Option String
  colorPalette : Option String
  projectDesc : Option String
deriving DecidableEq, Repr

/- JavaScript truthiness of an optional string field: undefined and the
empty string are falsy. -/
def truthy : Option String → Bool
  | none => false
  | some s => !(s.isEmpty)

def IMAGE_PLACEHOLDER_LOGO : String := "IMAGE_PLACEHOLDER_LOGO"

def IMAGE_PLACEHOLDER_BG : String := "IMAGE_PLACEHOLDER_BG"

/- Fallback inline image substituted when an image-generation call fails;
this is the exact literal appearing (twice, identically) in server.js. -/
def fallbackImageURI : String :=
  "data:image/png;base64,iVBORw0KGgoAAAANSUhEUgAAAAUAAAAFCAYAAACNbyblAAAAHElEQVQI12Nk+M+ACzFEFwoKMvClX6BAsAwAGgGFu6+opmQAAAABJRU5ErkJggg=="

/- Result of one image slot: on success the fetched bytes are encoded as an
inline data URI; on any failure inside the try block the fixed fallback
image is used instead (server.js logo and background catch blocks). -/
def imageAsset : Except Unit String → String
  | Except.ok b64 => "data:image/png;base64," ++ b64
  | Except.error _ => fallbackImageURI

/- Shallow embedding of doWebsiteGeneration (server.js).  The external
calls are parameters: gptRes is the text-completion call (its ok value the
raw message content), logoRes and bgRes the two image calls (ok value the
base64 payload of the fetched image), saveRes the final user.save().  The
whole body is wrapped in try/catch; every throw lands in markFailed and the
function always returns normally, so the promise handed to the route never
rejects. -/
/- Validation test at the top of the try block of doWebsiteGeneration:
destructure userInputs (or the empty object) and throw when coinName or
colorPalette is falsy. -/
def inputsInvalid (userInputs : Option UserInputs) : Bool :=
  let ui := userInputs.getD { coinName := none, colorPalette := none, projectDesc := none }
  !(truthy ui.coinName) || !(truthy ui.colorPalette)

def doWebsiteGeneration (userInputs : Option UserInputs)
    (gptRes : Except Unit String) (logoRes bgRes : Except Unit String)
    (saveRes : Except Unit Unit) : JobState :=
  let st0 := initialJob
  if inputsInvalid userInputs then
    markFailed st0
  else
    let st1 := setProgress st0 10
    let st2 := setProgress st1 20
    match gptRes with
    | Except.error _ => markFailed st2
    | Except.ok raw =>
      let siteCode0 := jsTrimS raw
      let st3 := setProgress st2 40
      let st4 := setProgress st3 50
      let logoAsset := imageAsset logoRes
      let st5 := setProgress st4 60
      let bgAsset := imageAsset bgRes
      let st6 := setProgress st5 80
      let siteCode1 := replaceAllS siteCode0 IMAGE_PLACEHOLDER_LOGO logoAsset
      let siteCode2 := replaceAllS siteCode1 IMAGE_PLACEHOLDER_BG bgAsset
      let siteCode3 := stripFencesS siteCode2
      let st7 := setProgress st6 90
      let st8 := { setProgress st7 100 with status := JobStatus.done, code := some siteCode3 }
      match saveRes with
      | Except.ok _ => st8
      | Except.error _ => markFailed st8

/- Atomic conditional debit of POST /start-generation:
User.findOneAndUpdate with filter credits at least 1 and update
increment -1, an atomic operation of the store. -/
def findOneAndUpdateDebit (credits : ℚ) : Option ℚ :=
  if 1 ≤ credits then some (credits - 1) else none

structure StartResponse where
  requestIdIssued : Bool
  creditsAfter : ℚ
  job : Option JobState
  refunded : Bool
deriving DecidableEq, Repr

/- Shallow embedding of POST /start-generation (server.js).  The route
validates only the presence of walletAddress and userInputs, then performs
the atomic conditional debit, creates the progressMap entry and launches
doWebsiteGeneration detached.  Because doWebsiteGeneration catches every
error internally and resolves normally, the route-level catch handler,
which would refund the debited credit, never runs. -/
def postStartGeneration (walletAddress : Option String)
    (userInputs : Option UserInputs) (credits : ℚ)
    (gptRes logoRes bgRes : Except Unit String)
    (saveRes : Except Unit Unit) : StartResponse :=
  if !(truthy walletAddress) || userInputs.isNone then
    { requestIdIssued := false, creditsAfter := credits, job := none, refunded := false }
  else
    match findOneAndUpdateDebit credits with
    | none =>
      { requestIdIssued := false, creditsAfter := credits, job := none, refunded := false }
    | some credits1 =>
      let finalJob := doWebsiteGeneration userInputs gptRes logoRes bgRes saveRes
      { requestIdIssued := true, creditsAfter := credits1, job := some finalJob,
        refunded := false }

/- Tally of a sequence of job-start attempts against one account.  Each
attempt runs the atomic conditional debit; a successful debit creates a job
(progressMap entry plus returned requestId), a failed one returns the 400
response before any job is created. -/
structure AttemptTally where
  jobsCreated : Nat
  rejections : Nat
  credits : ℚ
deriving DecidableEq, Repr

def startAttempts : Nat → ℚ → AttemptTally
  | 0, c => { jobsCreated := 0, rejections := 0, credits := c }
  | n + 1, c =>
    match findOneAndUpdateDebit c with
    | some c1 =>
      let t := startAttempts n c1
      { t with jobsCreated := t.jobsCreated + 1 }
    | none =>
      let t := startAttempts n c
      { t with rejections := t.rejections + 1 }

/- Section 3: deposit reconciler (services/depositService.js).

The user document carries a credit balance and the append-only
processedTransactions ledger used as the deduplication boundary. -/

structure LedgerEntry where
  txid : String
  coinType : String
  amount : ℚ
  creditsAdded : ℚ
  timestamp : Nat
deriving DecidableEq, Repr

structure User where
  walletAddress : String
  credits : ℚ
  processedTransactions : List LedgerEntry
deriving DecidableEq, Repr

/- Conversion-rate constants of services/depositService.js, hard-coded
literals in the source. -/
def CREDIT_CONVERSION_KAS : ℚ := 1 / 1

def CREDIT_CONVERSION_KASPER : ℚ := 1 / 800

def sompiScale : ℚ := 100000000

/- Deduplication test used by both source adapters:
user.processedTransactions.some(t => t.txid === hash).  The comparison
looks only at the txid field, never at coinType. -/
def txProcessed (u : User) (h : String) : Bool :=
  u.processedTransactions.any (fun t => decide (t.txid = h))

structure KasperTx where
  hashRev : String
  amt : Nat
  op : String
  toAddress : String
deriving DecidableEq, Repr

/- Body of the per-transaction loop of processUserKasperDeposits
(services/depositService.js lines 25 to 55): credit only operations whose
lowercased op is "transfer", whose destination is the wallet address and
whose hashRev is not yet in the ledger. -/
def kasperStep (now : Nat) (u : User) (tx : KasperTx) : User :=
  let amt : ℚ := (tx.amt : ℚ) / sompiScale
  if jsToLower tx.op = "transfer" ∧ tx.toAddress = u.walletAddress ∧ txProcessed u tx.hashRev = false then
    let creditsToAdd := amt * CREDIT_CONVERSION_KASPER
    { u with
      credits := u.credits + creditsToAdd,
      processedTransactions := u.processedTransactions ++
        [{ txid := tx.hashRev, coinType := "KASPER", amount := amt,
           creditsAdded := creditsToAdd, timestamp := now }] }
  else u

def processUserKasperDeposits (now : Nat) (u : User) (txs : List KasperTx) : User :=
  txs.foldl (kasperStep now) u

structure KaspaOutput where
  amount : Nat
  script_public_key_address : String
deriving DecidableEq, Repr

structure KaspaTx where
  hash : String
  outputs : List KaspaOutput
deriving DecidableEq, Repr

/- Body of the per-transaction loop of processUserKaspaDeposits in
services/depositService.js lines 68 to 95 (the variant required by
server.js): transactions with no outputs are skipped, and otherwise only
the FIRST output is examined, both for the destination address and for the
credited amount. -/
def kaspaStep (now : Nat) (u : User) (tx : KaspaTx) : User :=
  match tx.outputs with
  | [] => u
  | o :: _ =>
    let amount : ℚ := (o.amount : ℚ) / sompiScale
    if o.script_public_key_address = u.walletAddress ∧ txProcessed u tx.hash = false then
      let creditsToAdd := amount * CREDIT_CONVERSION_KAS
      { u with
        credits := u.credits + creditsToAdd,
        processedTransactions := u.processedTransactions ++
          [{ txid := tx.hash, coinType := "KAS", amount := amount,
             creditsAdded := creditsToAdd, timestamp := now }] }
    else u

def processUserKaspaDeposits (now : Nat) (u : User) (txs : List KaspaTx) : User :=
  txs.foldl (kaspaStep now) u

/- On-demand reconciliation of one user (services/depositService.js
fetchAndProcessUserDeposits): process the KASPER feed, then the KAS feed,
on the same user document, then save it. -/
def fetchAndProcessUserDeposits (now : Nat) (u : User)
    (kasperFeed : List KasperTx) (kaspaFeed : List KaspaTx) : User :=
  processUserKaspaDeposits now (processUserKasperDeposits now u kasperFeed) kaspaFeed

/- Sum of the eligible outputs of one transaction, as computed by the
second variant of processUserKaspaDeposits (services/depositService.js
lines 230 to 261, the backend/services variant): every output paying the
wallet address contributes amount divided by 1e8. -/
def sumToUser (wallet : String) (outs : List KaspaOutput) : ℚ :=
  outs.foldl
    (fun acc o =>
      if o.script_public_key_address = wallet then acc + (o.amount : ℚ) / sompiScale
      else acc) 0

/- Body of the per-transaction loop of the summing variant of
processUserKaspaDeposits: skip transactions with no outputs, sum all
outputs paying the user, and credit that sum when it is positive and the
hash is not yet in the ledger. -/
def kaspaStepSum (now : Nat) (u : User) (tx : KaspaTx) : User :=
  match tx.outputs with
  | [] => u
  | _ :: _ =>
    let s := sumToUser u.walletAddress tx.outputs
    if 0 < s then
      if txProcessed u tx.hash = false then
        let creditsToAdd := s * CREDIT_CONVERSION_KAS
        { u with
          credits := u.credits + creditsToAdd,
          processedTransactions := u.processedTransactions ++
            [{ txid := tx.hash, coinType := "KAS", amount := s,
               creditsAdded := creditsToAdd, timestamp := now }] }
      else u
    else u

def processUserKaspaDepositsSum (now : Nat) (u : User) (txs : List KaspaTx) : User :=
  txs.foldl (kaspaStepSum now) u

/- Credit conversion of backend/services/depositService.js scanDeposits:
Math.floor(amount / 5) for kas and Math.floor(amount / 340) for kasper,
where amount is the raw smallest-unit output amount taken directly from the
indexer response (never scaled down by 1e8); any other currency yields 0. -/
def scanDepositCredits (currency : String) (amount : Nat) : Nat :=
  if jsToLower currency = "kas" then amount / 5
  else if jsToLower currency = "kasper" then amount / 340
  else 0

/- Section 4: auxiliary predicates used by the proofs. -/

/- Propositional reading of properSuffixOkL: every nonempty suffix of u
that is a prefix of p is all of p. -/
def SuffixOk (p u : List Char) : Prop :=
  ∀ x, x <:+ u → x ≠ [] → isPrefixL x p = true → x.length = p.length

/- Propositional reading of noReentryL: no proper nonempty suffix of p
overlaps u at the start. -/
def ReentryOk (p u : List Char) : Prop :=
  ∀ j, 1 ≤ j → j < p.length → isPrefixL (p.drop j) u = false ∧ isPrefixL u (p.drop j) = false

/- State extension order on user documents: reconciliation steps never
change the wallet address and only ever add ledger entries, so the set of
processed transaction ids grows. -/
def UserExtends (u v : User) : Prop :=
  v.walletAddress = u.walletAddress ∧
    ∀ h, txProcessed u h = true → txProcessed v h = true

/- A KASPER feed transaction is covered by a user state when processing it
in that state (or any extension of it) is a no-op: it is statically
ineligible, or its identifier is already in the ledger. -/
def kasperCovered (u : User) (tx : KasperTx) : Prop :=
  ¬(jsToLower tx.op = "transfer" ∧ tx.toAddress = u.walletAddress) ∨
    txProcessed u tx.hashRev = true

/- Coverage for the KAS feed (first-output variant): whenever the output
list is nonempty, its first output is not addressed to the user or the
identifier is already in the ledger; a transaction with no outputs is
covered vacuously. -/
def kaspaCovered (u : User) (tx : KaspaTx) : Prop :=
  ∀ o rest, tx.outputs = o :: rest →
    ¬(o.script_public_key_address = u.walletAddress) ∨ txProcessed u tx.hash = true

/- Concrete fixtures used by witness theorems. -/

def exLedgerEntry : LedgerEntry :=
  { txid := "sharedhash", coinType := "KASPER", amount := 1, creditsAdded := 1, timestamp := 7 }

def exUser : User :=
  { walletAddress := "w", credits := 5, processedTransactions := [exLedgerEntry] }

def exKasperTx : KasperTx :=
  { hashRev := "sharedhash", amt := 800, op := "transfer", toAddress := "w" }

def exKaspaTx : KaspaTx :=
  { hash := "sharedhash", outputs := [{ amount := 900, script_public_key_address := "w" }] }

def exEmptyUser : User :=
  { walletAddress := "kaspa:w", credits := 0, processedTransactions := [] }

/- Transaction with three outputs paying the same account: 1, 2 and 3 KAS
in sompi units. -/
def exKaspaTx3 : KaspaTx :=
  { hash := "t1",
    outputs := [{ amount := 100000000, script_public_key_address := "kaspa:w" },
      { amount := 200000000, script_public_key_address := "kaspa:w" },
      { amount := 300000000, script_public_key_address := "kaspa:w" }] }

def exKasperTx2 : KasperTx :=
  { hashRev := "h9", amt := 1600, op := "transfer", toAddress := "kaspa:w" }

def exKaspaTx2 : KaspaTx :=
  { hash := "h8", outputs := [{ amount := 500, script_public_key_address := "kaspa:w" }] }

def exUI : UserInputs :=
  { coinName := some "Kasper", colorPalette := some "teal", projectDesc := some "d" }

def exBody : String :=
  "x IMAGE_PLACEHOLDER_LOGO y IMAGE_PLACEHOLDER_BG z"

/- Section 5: theorems. -/

theorem doWebsiteGeneration_trace_cases (userInputs : Option UserInputs)
    (gptRes logoRes bgRes : Except Unit String) (saveRes : Except Unit Unit) :
    (doWebsiteGeneration userInputs gptRes logoRes bgRes saveRes).trace = [0, 100] ∨
      (doWebsiteGeneration userInputs gptRes logoRes bgRes saveRes).trace = [0, 10, 20, 100] ∨
      (doWebsiteGeneration userInputs gptRes logoRes bgRes saveRes).trace =
        [0, 10, 20, 40, 50, 60, 80, 90, 100] ∨
      (doWebsiteGeneration userInputs gptRes logoRes bgRes saveRes).trace =
        [0, 10, 20, 40, 50, 60, 80, 90, 100, 100] := by
  cases hv : inputsInvalid userInputs with
  | true =>
    exact Or.inl (by simp [doWebsiteGeneration, hv, markFailed, setProgress, initialJob])
  | false =>
    cases gptRes with
    | error e =>
      exact Or.inr (Or.inl (by simp [doWebsiteGeneration, hv, markFailed, setProgress, initialJob]))
    | ok raw =>
      cases saveRes with
      | ok u =>
        exact Or.inr (Or.inr (Or.inl
          (by simp [doWebsiteGeneration, hv, markFailed, setProgress, initialJob])))
      | error e =>
        exact Or.inr (Or.inr (Or.inr
          (by simp [doWebsiteGeneration, hv, markFailed, setProgress, initialJob])))

theorem doWebsiteGeneration_progress_eq (userInputs : Option UserInputs)
    (gptRes logoRes bgRes : Except Unit String) (saveRes : Except Unit Unit) :
    (doWebsiteGeneration userInputs gptRes logoRes bgRes saveRes).progress = 100 := by
  cases hv : inputsInvalid userInputs with
  | true => simp [doWebsiteGeneration, hv, markFailed, setProgress, initialJob]
  | false =>
    cases gptRes with
    | error e => simp [doWebsiteGeneration, hv, markFailed, setProgress, initialJob]
    | ok raw =>
      cases saveRes with
      | ok u => simp [doWebsiteGeneration, hv, markFailed, setProgress, initialJob]
      | error e => simp [doWebsiteGeneration, hv, markFailed, setProgress, initialJob]

theorem doWebsiteGeneration_status_terminal (userInputs : Option UserInputs)
    (gptRes logoRes bgRes : Except Unit String) (saveRes : Except Unit Unit) :
    (doWebsiteGeneration userInputs gptRes logoRes bgRes saveRes).status = JobStatus.done ∨
      (doWebsiteGeneration userInputs gptRes logoRes bgRes saveRes).status = JobStatus.error := by
  cases hv : inputsInvalid userInputs with
  | true => exact Or.inr (by simp [doWebsiteGeneration, hv, markFailed, setProgress])
  | false =>
    cases gptRes with
    | error e => exact Or.inr (by simp [doWebsiteGeneration, hv, markFailed, setProgress])
    | ok raw =>
      cases saveRes with
      | ok u => exact Or.inl (by simp [doWebsiteGeneration, hv, markFailed, setProgress])
      | error e => exact Or.inr (by simp [doWebsiteGeneration, hv, markFailed, setProgress])

/-- C5: job progress is monotone and terminates at 100.  For every pipeline
run, the successive values of the progress field (the values successive
polls of GET /progress can observe) are non-decreasing and bounded by 100,
the final recorded value is 100, and the run ends in a terminal status
(done or error) with progress exactly 100. -/
theorem c5_progress_monotone_terminal (userInputs : Option UserInputs)
    (gptRes logoRes bgRes : Except Unit String) (saveRes : Except Unit Unit) :
    List.Chain' (· ≤ ·) (doWebsiteGeneration userInputs gptRes logoRes bgRes saveRes).trace ∧
      (∀ x ∈ (doWebsiteGeneration userInputs gptRes logoRes bgRes saveRes).trace, x ≤ 100) ∧
      (doWebsiteGeneration userInputs gptRes logoRes bgRes saveRes).trace.getLast? = some 100 ∧
      (doWebsiteGeneration userInputs gptRes logoRes bgRes saveRes).progress = 100 ∧
      ((doWebsiteGeneration userInputs gptRes logoRes bgRes saveRes).status = JobStatus.done ∨
        (doWebsiteGeneration userInputs gptRes logoRes bgRes saveRes).status = JobStatus.error) := by
  refine ⟨?_, ?_, ?_,
    doWebsiteGeneration_progress_eq userInputs gptRes logoRes bgRes saveRes,
    doWebsiteGeneration_status_terminal userInputs gptRes logoRes bgRes saveRes⟩ <;>
    rcases doWebsiteGeneration_trace_cases userInputs gptRes logoRes bgRes saveRes with
      h | h | h | h <;> rw [h] <;> simp [List.chain'_cons, List.getLast?]

theorem inputsInvalid_eq_false (ui : UserInputs)
    (h1 : truthy ui.coinName = true) (h2 : truthy ui.colorPalette = true) :
    inputsInvalid (some ui) = false := by
  simp [inputsInvalid, h1, h2]

/-- C7: a text-generation provider failure is fatal.  When the
text-completion call fails on validated inputs, the job ends with status
error, progress 100, a null artifact, and the exact progress trace
0, 10, 20, 100. -/
theorem c7_text_failure_fatal (ui : UserInputs) (e : Unit)
    (logoRes bgRes : Except Unit String) (saveRes : Except Unit Unit)
    (h1 : truthy ui.coinName = true) (h2 : truthy ui.colorPalette = true) :
    doWebsiteGeneration (some ui) (Except.error e) logoRes bgRes saveRes =
      { status := JobStatus.error, progress := 100, code := none, trace := [0, 10, 20, 100] } := by
  simp [doWebsiteGeneration, inputsInvalid_eq_false ui h1 h2, markFailed, setProgress, initialJob]

theorem c7_text_failure_fatal_witness :
    truthy (some "Kasper") = true ∧ truthy (some "teal") = true ∧
      doWebsiteGeneration
          (some { coinName := some "Kasper", colorPalette := some "teal", projectDesc := some "d" })
          (Except.error ()) (Except.ok "a") (Except.ok "b") (Except.ok ()) =
        { status := JobStatus.error, progress := 100, code := none, trace := [0, 10, 20, 100] } :=
  ⟨by decide, by decide,
    c7_text_failure_fatal
      { coinName := some "Kasper", colorPalette := some "teal", projectDesc := some "d" } ()
      (Except.ok "a") (Except.ok "b") (Except.ok ()) (by decide) (by decide)⟩

/-- C4: image-generation failure is non-fatal.  If one or both image-slot
calls fail (and the rest of the run succeeds), the job still ends done with
progress 100, the artifact is the document with each slot token globally
replaced by the asset chosen for that slot, and the asset used for any failed slot
is the fixed placeholder data URI. -/
theorem c4_image_failure_nonfatal (ui : UserInputs) (body : String)
    (logoRes bgRes : Except Unit String)
    (h1 : truthy ui.coinName = true) (h2 : truthy ui.colorPalette = true)
    (hfail : logoRes.isOk = false ∨ bgRes.isOk = false) :
    (doWebsiteGeneration (some ui) (Except.ok body) logoRes bgRes (Except.ok ())).status =
        JobStatus.done ∧
      (doWebsiteGeneration (some ui) (Except.ok body) logoRes bgRes (Except.ok ())).progress = 100 ∧
      (doWebsiteGeneration (some ui) (Except.ok body) logoRes bgRes (Except.ok ())).code =
        some (stripFencesS (replaceAllS (replaceAllS (jsTrimS body)
          IMAGE_PLACEHOLDER_LOGO (imageAsset logoRes)) IMAGE_PLACEHOLDER_BG (imageAsset bgRes))) ∧
      (logoRes.isOk = false → imageAsset logoRes = fallbackImageURI) ∧
      (bgRes.isOk = false → imageAsset bgRes = fallbackImageURI) := by
  refine ⟨?_, ?_, ?_, ?_, ?_⟩
  · simp [doWebsiteGeneration, inputsInvalid_eq_false ui h1 h2, setProgress, initialJob]
  · simp [doWebsiteGeneration, inputsInvalid_eq_false ui h1 h2, setProgress, initialJob]
  · simp [doWebsiteGeneration, inputsInvalid_eq_false ui h1 h2, setProgress, initialJob]
  · intro hl
    cases logoRes with
    | ok a => simp [Except.isOk, Except.toBool] at hl
    | error e => rfl
  · intro hb
    cases bgRes with
    | ok a => simp [Except.isOk, Except.toBool] at hb
    | error e => rfl

theorem c4_image_failure_nonfatal_witness :
    truthy (some "Kasper") = true ∧ truthy (some "teal") = true ∧
      ((Except.error () : Except Unit String).isOk = false ∨
        (Except.ok "BBBB" : Except Unit String).isOk = false) ∧
      ((doWebsiteGeneration
          (some { coinName := some "Kasper", colorPalette := some "teal", projectDesc := none })
          (Except.ok "x IMAGE_PLACEHOLDER_LOGO y") (Except.error ()) (Except.ok "BBBB")
          (Except.ok ())).status = JobStatus.done ∧
        (doWebsiteGeneration
          (some { coinName := some "Kasper", colorPalette := some "teal", projectDesc := none })
          (Except.ok "x IMAGE_PLACEHOLDER_LOGO y") (Except.error ()) (Except.ok "BBBB")
          (Except.ok ())).progress = 100 ∧
        (doWebsiteGeneration
          (some { coinName := some "Kasper", colorPalette := some "teal", projectDesc := none })
          (Except.ok "x IMAGE_PLACEHOLDER_LOGO y") (Except.error ()) (Except.ok "BBBB")
          (Except.ok ())).code =
          some (stripFencesS (replaceAllS (replaceAllS (jsTrimS "x IMAGE_PLACEHOLDER_LOGO y")
            IMAGE_PLACEHOLDER_LOGO (imageAsset (Except.error ())))
            IMAGE_PLACEHOLDER_BG (imageAsset (Except.ok "BBBB")))) ∧
        ((Except.error () : Except Unit String).isOk = false →
          imageAsset (Except.error ()) = fallbackImageURI) ∧
        ((Except.ok "BBBB" : Except Unit String).isOk = false →
          imageAsset (Except.ok "BBBB") = fallbackImageURI)) :=
  ⟨by decide, by decide, by decide,
    c4_image_failure_nonfatal
      { coinName := some "Kasper", colorPalette := some "teal", projectDesc := none }
      "x IMAGE_PLACEHOLDER_LOGO y" (Except.error ()) (Except.ok "BBBB")
      (by decide) (by decide) (by decide)⟩

/-- C10: required-input validation happens only inside the detached
background task, after the debit.  For an account with at least one credit,
a request with walletAddress and userInputs present but coinName or
colorPalette missing is debited one credit and receives a requestId; the
job then ends in status error with progress 100 through the internal catch
of the task, and the route-level refund handler never runs. -/
theorem c10_validation_after_debit (wallet : Option String) (ui : UserInputs) (credits : ℚ)
    (gptRes logoRes bgRes : Except Unit String) (saveRes : Except Unit Unit)
    (hw : truthy wallet = true) (hc : 1 ≤ credits)
    (hmiss : inputsInvalid (some ui) = true) :
    (postStartGeneration wallet (some ui) credits gptRes logoRes bgRes saveRes).requestIdIssued
        = true ∧
      (postStartGeneration wallet (some ui) credits gptRes logoRes bgRes saveRes).creditsAfter
        = credits - 1 ∧
      (postStartGeneration wallet (some ui) credits gptRes logoRes bgRes saveRes).refunded
        = false ∧
      (postStartGeneration wallet (some ui) credits gptRes logoRes bgRes saveRes).job =
        some { status := JobStatus.error, progress := 100, code := none, trace := [0, 100] } := by
  have hdeb : findOneAndUpdateDebit credits = some (credits - 1) := by
    simp [findOneAndUpdateDebit, hc]
  have hjob : doWebsiteGeneration (some ui) gptRes logoRes bgRes saveRes =
      { status := JobStatus.error, progress := 100, code := none, trace := [0, 100] } := by
    simp [doWebsiteGeneration, hmiss, markFailed, setProgress, initialJob]
  refine ⟨?_, ?_, ?_, ?_⟩ <;> simp [postStartGeneration, hw, hdeb, hjob]

theorem c10_validation_after_debit_witness :
    truthy (some "wallet1") = true ∧ (1 : ℚ) ≤ 3 ∧
      inputsInvalid
        (some { coinName := none, colorPalette := some "teal", projectDesc := some "d" }) = true ∧
      ((postStartGeneration (some "wallet1")
          (some { coinName := none, colorPalette := some "teal", projectDesc := some "d" })
          3 (Except.ok "x") (Except.ok "a") (Except.ok "b") (Except.ok ())).requestIdIssued
            = true ∧
        (postStartGeneration (some "wallet1")
          (some { coinName := none, colorPalette := some "teal", projectDesc := some "d" })
          3 (Except.ok "x") (Except.ok "a") (Except.ok "b") (Except.ok ())).creditsAfter
            = 3 - 1 ∧
        (postStartGeneration (some "wallet1")
          (some { coinName := none, colorPalette := some "teal", projectDesc := some "d" })
          3 (Except.ok "x") (Except.ok "a") (Except.ok "b") (Except.ok ())).refunded
            = false ∧
        (postStartGeneration (some "wallet1")
          (some { coinName := none, colorPalette := some "teal", projectDesc := some "d" })
          3 (Except.ok "x") (Except.ok "a") (Except.ok "b") (Except.ok ())).job =
          some { status := JobStatus.error, progress := 100, code := none, trace := [0, 100] }) :=
  ⟨by decide, by decide, by decide,
    c10_validation_after_debit (some "wallet1")
      { coinName := none, colorPalette := some "teal", projectDesc := some "d" }
      3 (Except.ok "x") (Except.ok "a") (Except.ok "b") (Except.ok ())
      (by decide) (by decide) (by decide)⟩

theorem startAttempts_closed_form (k N : ℕ) :
    startAttempts k ((N : ℕ) : ℚ) =
      { jobsCreated := min k N, rejections := k - min k N,
        credits := ((N - min k N : ℕ) : ℚ) } := by
  induction k generalizing N with
  | zero => simp [startAttempts]
  | succ k ih =>
    cases N with
    | zero =>
      have hdeb : findOneAndUpdateDebit (0 : ℚ) = none := by
        norm_num [findOneAndUpdateDebit]
      have ih0 : startAttempts k (0 : ℚ) =
          { jobsCreated := min k 0, rejections := k - min k 0,
            credits := ((0 - min k 0 : ℕ) : ℚ) } := by
        have := ih 0
        simpa using this
      simp [startAttempts, hdeb, ih0]
    | succ M =>
      have h1 : (1 : ℚ) ≤ ((M + 1 : ℕ) : ℚ) := by
        exact_mod_cast Nat.succ_le_succ (Nat.zero_le M)
      have hdeb : findOneAndUpdateDebit ((M + 1 : ℕ) : ℚ) =
          some (((M + 1 : ℕ) : ℚ) - 1) := by
        simp [findOneAndUpdateDebit, h1]
      have hcast : ((M + 1 : ℕ) : ℚ) - 1 = ((M : ℕ) : ℚ) := by
        push_cast
        ring
      simp only [startAttempts, hdeb, hcast, ih M]
      simp only [AttemptTally.mk.injEq]
      refine ⟨by omega, by omega, congrArg _ (by omega)⟩

/-- C3: the job-start debit preserves non-negativity of the balance.  The
debit is the atomic conditional decrement of findOneAndUpdateDebit, so for
an account with exactly N credits a sequence of N plus 1 job-start attempts
yields exactly N created jobs (successful debits) and one rejection with a
final balance of zero, and the balance after any number of attempts is
never negative. -/
theorem c3_conditional_debit_conservation (N : ℕ) :
    startAttempts (N + 1) ((N : ℕ) : ℚ) =
      { jobsCreated := N, rejections := 1, credits := 0 } ∧
      ∀ k : ℕ, 0 ≤ (startAttempts k ((N : ℕ) : ℚ)).credits := by
  constructor
  · rw [startAttempts_closed_form]
    have hmin : min (N + 1) N = N := by omega
    rw [hmin]
    simp
  · intro k
    rw [startAttempts_closed_form]
    exact Nat.cast_nonneg _

/-- C9: deposit deduplication is keyed by the transaction identifier
alone.  If any ledger entry (whatever its coinType tag) carries the same
identifier as an incoming KASPER or KAS transaction, that transaction is
skipped by every adapter variant: the user document is left unchanged. -/
theorem c9_dedup_by_txid_only (u : User) (ktx : KasperTx) (ptx : KaspaTx) (n1 n2 n3 : ℕ)
    (h1 : ∃ e ∈ u.processedTransactions, e.txid = ktx.hashRev)
    (h2 : ∃ e ∈ u.processedTransactions, e.txid = ptx.hash) :
    kasperStep n1 u ktx = u ∧ kaspaStep n2 u ptx = u ∧ kaspaStepSum n3 u ptx = u := by
  have hp1 : txProcessed u ktx.hashRev = true := by
    rcases h1 with ⟨e, he, heq⟩
    simp only [txProcessed, List.any_eq_true]
    exact ⟨e, he, by simp [heq]⟩
  have hp2 : txProcessed u ptx.hash = true := by
    rcases h2 with ⟨e, he, heq⟩
    simp only [txProcessed, List.any_eq_true]
    exact ⟨e, he, by simp [heq]⟩
  refine ⟨?_, ?_, ?_⟩
  · simp [kasperStep, hp1]
  · cases houts : ptx.outputs with
    | nil => simp [kaspaStep, houts]
    | cons o rest => simp [kaspaStep, houts, hp2]
  · cases houts : ptx.outputs with
    | nil => simp [kaspaStepSum, houts]
    | cons o rest =>
      simp only [kaspaStepSum, houts, hp2]
      split <;> simp

theorem c9_dedup_by_txid_only_witness :
    (∃ e ∈ exUser.processedTransactions, e.txid = exKasperTx.hashRev) ∧
      (∃ e ∈ exUser.processedTransactions, e.txid = exKaspaTx.hash) ∧
      (kasperStep 1 exUser exKasperTx = exUser ∧ kaspaStep 2 exUser exKaspaTx = exUser ∧
        kaspaStepSum 3 exUser exKaspaTx = exUser) :=
  ⟨⟨exLedgerEntry, by decide, by decide⟩, ⟨exLedgerEntry, by decide, by decide⟩,
    c9_dedup_by_txid_only exUser exKasperTx exKaspaTx 1 2 3
      ⟨exLedgerEntry, by decide, by decide⟩ ⟨exLedgerEntry, by decide, by decide⟩⟩

/- Lemmas for claim C1: reconciliation steps only extend the ledger, and a
transaction covered by a state is inert in every extension of it. -/

theorem txProcessed_append (u : User) (c : ℚ) (e : LedgerEntry) (h : String)
    (hp : txProcessed u h = true) :
    txProcessed
      { u with
        credits := c,
        processedTransactions := u.processedTransactions ++ [e] } h = true := by
  simp only [txProcessed] at hp ⊢
  rw [List.any_append]
  simp [hp]

theorem kasperStep_walletAddress (now : ℕ) (u : User) (tx : KasperTx) :
    (kasperStep now u tx).walletAddress = u.walletAddress := by
  simp only [kasperStep]
  split <;> rfl

theorem kaspaStep_walletAddress (now : ℕ) (u : User) (tx : KaspaTx) :
    (kaspaStep now u tx).walletAddress = u.walletAddress := by
  simp only [kaspaStep]
  split
  · rfl
  · split <;> rfl

theorem txProcessed_kasperStep (now : ℕ) (u : User) (tx : KasperTx) (h : String)
    (hp : txProcessed u h = true) :
    txProcessed (kasperStep now u tx) h = true := by
  simp only [kasperStep]
  split
  · exact txProcessed_append u _ _ h hp
  · exact hp

theorem txProcessed_kaspaStep (now : ℕ) (u : User) (tx : KaspaTx) (h : String)
    (hp : txProcessed u h = true) :
    txProcessed (kaspaStep now u tx) h = true := by
  simp only [kaspaStep]
  split
  · exact hp
  · split
    · exact txProcessed_append u _ _ h hp
    · exact hp

theorem userExtends_refl (u : User) : UserExtends u u :=
  ⟨rfl, fun _ hp => hp⟩

theorem userExtends_trans {u v w : User} (h1 : UserExtends u v) (h2 : UserExtends v w) :
    UserExtends u w :=
  ⟨h2.1.trans h1.1, fun h hp => h2.2 h (h1.2 h hp)⟩

theorem kasperStep_userExtends (now : ℕ) (u : User) (tx : KasperTx) :
    UserExtends u (kasperStep now u tx) :=
  ⟨kasperStep_walletAddress now u tx, fun h hp => txProcessed_kasperStep now u tx h hp⟩

theorem kaspaStep_userExtends (now : ℕ) (u : User) (tx : KaspaTx) :
    UserExtends u (kaspaStep now u tx) :=
  ⟨kaspaStep_walletAddress now u tx, fun h hp => txProcessed_kaspaStep now u tx h hp⟩

theorem processUserKasperDeposits_userExtends (now : ℕ) (u : User) (txs : List KasperTx) :
    UserExtends u (processUserKasperDeposits now u txs) := by
  induction txs generalizing u with
  | nil => exact userExtends_refl u
  | cons t ts ih =>
    simp only [processUserKasperDeposits, List.foldl_cons]
    exact userExtends_trans (kasperStep_userExtends now u t) (ih (kasperStep now u t))

theorem processUserKaspaDeposits_userExtends (now : ℕ) (u : User) (txs : List KaspaTx) :
    UserExtends u (processUserKaspaDeposits now u txs) := by
  induction txs generalizing u with
  | nil => exact userExtends_refl u
  | cons t ts ih =>
    simp only [processUserKaspaDeposits, List.foldl_cons]
    exact userExtends_trans (kaspaStep_userExtends now u t) (ih (kaspaStep now u t))

theorem kasperCovered_mono {u v : User} (tx : KasperTx) (hext : UserExtends u v)
    (hc : kasperCovered u tx) : kasperCovered v tx := by
  cases hc with
  | inl hstat =>
    left
    rw [hext.1]
    exact hstat
  | inr hproc => exact Or.inr (hext.2 _ hproc)

theorem kaspaCovered_mono {u v : User} (tx : KaspaTx) (hext : UserExtends u v)
    (hc : kaspaCovered u tx) : kaspaCovered v tx := by
  intro o rest houts
  cases hc o rest houts with
  | inl hstat =>
    left
    rw [hext.1]
    exact hstat
  | inr hproc => exact Or.inr (hext.2 _ hproc)

theorem kasperStep_of_covered (now : ℕ) {u : User} {tx : KasperTx}
    (hc : kasperCovered u tx) : kasperStep now u tx = u := by
  simp only [kasperStep]
  rw [if_neg]
  rintro ⟨ha, hb, hp⟩
  cases hc with
  | inl hstat => exact hstat ⟨ha, hb⟩
  | inr hproc => rw [hproc] at hp; cases hp

theorem kaspaStep_of_covered (now : ℕ) {u : User} {tx : KaspaTx}
    (hc : kaspaCovered u tx) : kaspaStep now u tx = u := by
  cases houts : tx.outputs with
  | nil => simp [kaspaStep, houts]
  | cons o rest =>
    simp only [kaspaStep, houts]
    rw [if_neg]
    rintro ⟨ha, hp⟩
    cases hc o rest houts with
    | inl hstat => exact hstat ha
    | inr hproc => rw [hproc] at hp; cases hp

theorem kasperStep_covers (now : ℕ) (u : User) (tx : KasperTx) :
    kasperCovered (kasperStep now u tx) tx := by
  by_cases hC : jsToLower tx.op = "transfer" ∧ tx.toAddress = u.walletAddress ∧
      txProcessed u tx.hashRev = false
  · simp only [kasperStep]
    rw [if_pos hC]
    right
    simp only [txProcessed]
    rw [List.any_append]
    simp
  · by_cases hAB : jsToLower tx.op = "transfer" ∧ tx.toAddress = u.walletAddress
    · have hp : txProcessed u tx.hashRev = true := by
        rcases Bool.eq_false_or_eq_true (txProcessed u tx.hashRev) with ht | hf
        · exact ht
        · exact absurd ⟨hAB.1, hAB.2, hf⟩ hC
      right
      exact txProcessed_kasperStep now u tx tx.hashRev hp
    · left
      rw [kasperStep_walletAddress now u tx]
      exact hAB

theorem kaspaStep_covers (now : ℕ) (u : User) (tx : KaspaTx) :
    kaspaCovered (kaspaStep now u tx) tx := by
  intro o rest houts
  by_cases hC : o.script_public_key_address = u.walletAddress ∧
      txProcessed u tx.hash = false
  · right
    simp only [kaspaStep, houts]
    rw [if_pos hC]
    simp only [txProcessed]
    rw [List.any_append]
    simp
  · by_cases hA : o.script_public_key_address = u.walletAddress
    · have hp : txProcessed u tx.hash = true := by
        rcases Bool.eq_false_or_eq_true (txProcessed u tx.hash) with ht | hf
        · exact ht
        · exact absurd ⟨hA, hf⟩ hC
      right
      exact txProcessed_kaspaStep now u tx tx.hash hp
    · left
      rw [kaspaStep_walletAddress now u tx]
      exact hA

theorem processUserKasperDeposits_covers (now : ℕ) (u : User) (txs : List KasperTx) :
    ∀ tx ∈ txs, kasperCovered (processUserKasperDeposits now u txs) tx := by
  induction txs generalizing u with
  | nil => intro tx h; cases h
  | cons t ts ih =>
    intro tx htx
    simp only [processUserKasperDeposits, List.foldl_cons]
    rcases List.mem_cons.mp htx with rfl | hmem
    · exact kasperCovered_mono tx
        (processUserKasperDeposits_userExtends now (kasperStep now u tx) ts)
        (kasperStep_covers now u tx)
    · exact ih (kasperStep now u t) tx hmem

theorem processUserKaspaDeposits_covers (now : ℕ) (u : User) (txs : List KaspaTx) :
    ∀ tx ∈ txs, kaspaCovered (processUserKaspaDeposits now u txs) tx := by
  induction txs generalizing u with
  | nil => intro tx h; cases h
  | cons t ts ih =>
    intro tx htx
    simp only [processUserKaspaDeposits, List.foldl_cons]
    rcases List.mem_cons.mp htx with rfl | hmem
    · exact kaspaCovered_mono tx
        (processUserKaspaDeposits_userExtends now (kaspaStep now u tx) ts)
        (kaspaStep_covers now u tx)
    · exact ih (kaspaStep now u t) tx hmem

theorem processUserKasperDeposits_id (now : ℕ) (u : User) (txs : List KasperTx)
    (hall : ∀ tx ∈ txs, kasperCovered u tx) :
    processUserKasperDeposits now u txs = u := by
  induction txs with
  | nil => rfl
  | cons t ts ih =>
    have hstep : kasperStep now u t = u :=
      kasperStep_of_covered now (hall t (List.mem_cons_self t ts))
    simp only [processUserKasperDeposits, List.foldl_cons, hstep]
    exact ih (fun tx h => hall tx (List.mem_cons_of_mem _ h))

theorem processUserKaspaDeposits_id (now : ℕ) (u : User) (txs : List KaspaTx)
    (hall : ∀ tx ∈ txs, kaspaCovered u tx) :
    processUserKaspaDeposits now u txs = u := by
  induction txs with
  | nil => rfl
  | cons t ts ih =>
    have hstep : kaspaStep now u t = u :=
      kaspaStep_of_covered now (hall t (List.mem_cons_self t ts))
    simp only [processUserKaspaDeposits, List.foldl_cons, hstep]
    exact ih (fun tx h => hall tx (List.mem_cons_of_mem _ h))

/-- C1: deposit reconciliation is idempotent.  With both upstream feeds
unchanged, a second run of the on-demand reconciliation returns the user
document of the first run unchanged: it adds zero credits and appends no
ledger entries, because every transaction identifier already ledgered is
skipped.  The timestamps of the two runs may even differ. -/
theorem c1_reconciliation_idempotent (u : User) (kasperFeed : List KasperTx)
    (kaspaFeed : List KaspaTx) (t1 t2 : ℕ) :
    fetchAndProcessUserDeposits t2 (fetchAndProcessUserDeposits t1 u kasperFeed kaspaFeed)
        kasperFeed kaspaFeed =
      fetchAndProcessUserDeposits t1 u kasperFeed kaspaFeed := by
  unfold fetchAndProcessUserDeposits
  have hkcov : ∀ tx ∈ kasperFeed,
      kasperCovered
        (processUserKaspaDeposits t1 (processUserKasperDeposits t1 u kasperFeed) kaspaFeed)
        tx := by
    intro tx h
    exact kasperCovered_mono tx
      (processUserKaspaDeposits_userExtends t1 _ kaspaFeed)
      (processUserKasperDeposits_covers t1 u kasperFeed tx h)
  have hpcov : ∀ tx ∈ kaspaFeed,
      kaspaCovered
        (processUserKaspaDeposits t1 (processUserKasperDeposits t1 u kasperFeed) kaspaFeed)
        tx :=
    processUserKaspaDeposits_covers t1 _ kaspaFeed
  rw [processUserKasperDeposits_id t2 _ kasperFeed hkcov]
  exact processUserKaspaDeposits_id t2 _ kaspaFeed hpcov

/-- C2 counterexample: the claim states that for every Source B (Kaspa)
transaction the credited amount is the sum of ALL outputs paying the
account times the KAS rate.  In the variant of processUserKaspaDeposits
wired into server.js (services/depositService.js lines 61 to 96) only the
first output is read: a transaction with outputs of 1, 2 and 3 KAS to the
account credits 1 credit, not (1+2+3) x rate = 6. -/
theorem c2_counterexample :
    (processUserKaspaDeposits 0 exEmptyUser [exKaspaTx3]).credits = 1 ∧
      ((1 : ℚ) + 2 + 3) * CREDIT_CONVERSION_KAS ≠ 1 := by
  constructor
  · simp [processUserKaspaDeposits, kaspaStep, exEmptyUser, exKaspaTx3, txProcessed,
      CREDIT_CONVERSION_KAS, sompiScale]
  · norm_num [CREDIT_CONVERSION_KAS]

/-- C2 amended: in the summing variant of processUserKaspaDeposits (the
backend/services variant, services/depositService.js lines 217 to 265) a
not-yet-ledgered transaction with three outputs of a, b, c sompi to the
account is credited ((a+b+c)/1e8) x rateKAS; the variant wired into
server.js reads only the first output (see the counterexample). -/
theorem c2_amended_sum_outputs (u : User) (h : String) (a b c : ℕ) (now : ℕ)
    (hproc : txProcessed u h = false) :
    (processUserKaspaDepositsSum now u
        [{ hash := h,
           outputs := [{ amount := a, script_public_key_address := u.walletAddress },
             { amount := b, script_public_key_address := u.walletAddress },
             { amount := c, script_public_key_address := u.walletAddress }] }]).credits =
      u.credits + (((a : ℚ) + b + c) / sompiScale) * CREDIT_CONVERSION_KAS := by
  have hS : (0 : ℚ) < sompiScale := by norm_num [sompiScale]
  have hsum : sumToUser u.walletAddress
      [{ amount := a, script_public_key_address := u.walletAddress },
        { amount := b, script_public_key_address := u.walletAddress },
        { amount := c, script_public_key_address := u.walletAddress }] =
      (((a : ℚ) + b + c) / sompiScale) := by
    simp [sumToUser]
    ring
  simp only [processUserKaspaDepositsSum, List.foldl_cons, List.foldl_nil, kaspaStepSum, hsum]
  by_cases hpos : (0 : ℚ) < (((a : ℚ) + b + c) / sompiScale)
  · rw [if_pos hpos, if_pos hproc]
  · rw [if_neg hpos]
    have hnn : (0 : ℚ) ≤ (((a : ℚ) + b + c) / sompiScale) := by positivity
    have hz : (((a : ℚ) + b + c) / sompiScale) = 0 := le_antisymm (not_lt.mp hpos) hnn
    rw [hz]
    ring

theorem c2_amended_sum_outputs_witness :
    txProcessed exEmptyUser "t1" = false ∧
      (processUserKaspaDepositsSum 9 exEmptyUser
          [{ hash := "t1",
             outputs := [{ amount := 1, script_public_key_address := "kaspa:w" },
               { amount := 2, script_public_key_address := "kaspa:w" },
               { amount := 3, script_public_key_address := "kaspa:w" }] }]).credits =
        exEmptyUser.credits + (((1 : ℚ) + 2 + 3) / sompiScale) * CREDIT_CONVERSION_KAS :=
  ⟨by decide, c2_amended_sum_outputs exEmptyUser "t1" 1 2 3 9 (by decide)⟩

/-- C8 counterexample: the claim states that every eligible transaction is
credited scale-adjusted amount times a fixed per-source rate.  The
scanDeposits variant (backend/services/depositService.js) computes
Math.floor of the raw amount over 5 for kas: any linear conversion
credits = amount x r satisfies credits(14) x 5 = credits(10) x 7, but the
code gives 2 x 5 = 10 on one side and 2 x 7 = 14 on the other. -/
theorem c8_counterexample :
    scanDepositCredits "kas" 10 = 2 ∧ scanDepositCredits "kas" 14 = 2 ∧
      (scanDepositCredits "kas" 14 : ℚ) * 5 ≠ (scanDepositCredits "kas" 10 : ℚ) * 7 := by
  have h1 : scanDepositCredits "kas" 10 = 2 := by decide
  have h2 : scanDepositCredits "kas" 14 = 2 := by decide
  refine ⟨h1, h2, ?_⟩
  rw [h1, h2]
  norm_num

/-- C8 amended: conversion in services/depositService.js is linear with the
fixed hard-coded constants rateKAS = 1 and rateKASPER = 1/800 applied to
the 1e8-scale-adjusted amount, while scanDeposits
(backend/services/depositService.js) instead floors the raw smallest-unit
amount over the hard-coded divisors 5 (kas) and 340 (kasper); no variant
reads the rate from configuration. -/
theorem c8_amended_rates :
    (∀ (now : ℕ) (u : User) (tx : KasperTx), jsToLower tx.op = "transfer" →
      tx.toAddress = u.walletAddress → txProcessed u tx.hashRev = false →
      (kasperStep now u tx).credits =
        u.credits + ((tx.amt : ℚ) / sompiScale) * CREDIT_CONVERSION_KASPER) ∧
    (∀ (now : ℕ) (u : User) (tx : KaspaTx) (o : KaspaOutput) (rest : List KaspaOutput),
      tx.outputs = o :: rest → o.script_public_key_address = u.walletAddress →
      txProcessed u tx.hash = false →
      (kaspaStep now u tx).credits =
        u.credits + ((o.amount : ℚ) / sompiScale) * CREDIT_CONVERSION_KAS) ∧
    CREDIT_CONVERSION_KAS = 1 ∧ CREDIT_CONVERSION_KASPER = 1 / 800 ∧
    (∀ amount : ℕ, scanDepositCredits "kas" amount = amount / 5) ∧
    (∀ amount : ℕ, scanDepositCredits "kasper" amount = amount / 340) := by
  refine ⟨?_, ?_, by norm_num [CREDIT_CONVERSION_KAS], by norm_num [CREDIT_CONVERSION_KASPER],
    ?_, ?_⟩
  · intro now u tx h1 h2 h3
    simp only [kasperStep]
    rw [if_pos ⟨h1, h2, h3⟩]
  · intro now u tx o rest houts h2 h3
    simp only [kaspaStep, houts]
    rw [if_pos ⟨h2, h3⟩]
  · intro amount
    unfold scanDepositCredits
    rw [if_pos (by decide)]
  · intro amount
    unfold scanDepositCredits
    rw [if_neg (by decide), if_pos (by decide)]

theorem c8_amended_rates_witness :
    jsToLower exKasperTx2.op = "transfer" ∧ exKasperTx2.toAddress = exEmptyUser.walletAddress ∧
      txProcessed exEmptyUser exKasperTx2.hashRev = false ∧
      exKaspaTx2.outputs =
        ({ amount := 500, script_public_key_address := "kaspa:w" } : KaspaOutput) :: [] ∧
      ({ amount := 500, script_public_key_address := "kaspa:w" }
          : KaspaOutput).script_public_key_address = exEmptyUser.walletAddress ∧
      txProcessed exEmptyUser exKaspaTx2.hash = false ∧
      (kasperStep 4 exEmptyUser exKasperTx2).credits =
        exEmptyUser.credits + ((exKasperTx2.amt : ℚ) / sompiScale) * CREDIT_CONVERSION_KASPER ∧
      (kaspaStep 5 exEmptyUser exKaspaTx2).credits =
        exEmptyUser.credits +
          ((({ amount := 500, script_public_key_address := "kaspa:w" }
            : KaspaOutput).amount : ℚ) / sompiScale) * CREDIT_CONVERSION_KAS :=
  ⟨by decide, by decide, by decide, by decide, by decide, by decide,
    c8_amended_rates.1 4 exEmptyUser exKasperTx2 (by decide) (by decide) (by decide),
    c8_amended_rates.2.1 5 exEmptyUser exKaspaTx2
      { amount := 500, script_public_key_address := "kaspa:w" } [] (by decide) (by decide)
      (by decide)⟩

/- Lemmas about the global-substitution scanner, used by claim C6. -/

theorem isEmpty_eq_false_of_ne_nil {p : List Char} (hp : p ≠ []) : p.isEmpty = false := by
  cases p with
  | nil => exact absurd rfl hp
  | cons a p' => rfl

theorem occursL_nil_of_ne (p : List Char) (hp : p ≠ []) : occursL p [] = false := by
  simp [occursL, isEmpty_eq_false_of_ne_nil hp]

theorem occursL_of_isPrefixL (p s : List Char) (h : isPrefixL p s = true) :
    occursL p s = true := by
  cases s with
  | nil =>
    cases p with
    | nil => rfl
    | cons a p' => simp [isPrefixL] at h
  | cons c t => simp [occursL, h]

theorem occursL_append_right (p x y : List Char) (h : occursL p y = true) :
    occursL p (x ++ y) = true := by
  induction x with
  | nil => simpa using h
  | cons c x' ih => simp [occursL, ih]

theorem occursL_drop_of_not (p s : List Char) (n : ℕ) (h : occursL p s = false) :
    occursL p (s.drop n) = false := by
  cases hv : occursL p (s.drop n) with
  | false => rfl
  | true =>
    have h2 := occursL_append_right p (s.take n) (s.drop n) hv
    rw [List.take_append_drop] at h2
    simp [h] at h2

theorem isPrefixL_append_left (p x y : List Char) (h : isPrefixL p (x ++ y) = true)
    (hlen : p.length ≤ x.length) : isPrefixL p x = true := by
  induction p generalizing x with
  | nil => rfl
  | cons a p' ih =>
    cases x with
    | nil => simp at hlen
    | cons b x' =>
      simp only [List.cons_append, isPrefixL] at h ⊢
      by_cases hab : a = b
      · rw [if_pos hab] at h ⊢
        exact ih x' h (by simpa using hlen)
      · rw [if_neg hab] at h
        simp at h

theorem isPrefixL_append_split (p x y : List Char) (h : isPrefixL p (x ++ y) = true)
    (hlen : x.length ≤ p.length) :
    isPrefixL x p = true ∧ isPrefixL (p.drop x.length) y = true := by
  induction x generalizing p with
  | nil => exact ⟨rfl, by simpa using h⟩
  | cons b x' ih =>
    cases p with
    | nil => simp at hlen
    | cons a p' =>
      simp only [List.cons_append, isPrefixL] at h
      by_cases hab : a = b
      · rw [if_pos hab] at h
        obtain ⟨h1, h2⟩ := ih p' h (by simpa using hlen)
        constructor
        · simp only [isPrefixL]
          rw [if_pos hab.symm]
          exact h1
        · simpa using h2
      · rw [if_neg hab] at h
        simp at h

theorem occursL_append_of_safe (p u y : List Char) (ha : occursL p u = false)
    (hs : SuffixOk p u) (h : occursL p (u ++ y) = true) : occursL p y = true := by
  induction u with
  | nil => simpa using h
  | cons c u' ih =>
    have ha' : isPrefixL p (c :: u') = false ∧ occursL p u' = false := by
      simpa [occursL, Bool.or_eq_false_iff] using ha
    rw [List.cons_append] at h
    have h2 : isPrefixL p (c :: (u' ++ y)) = true ∨ occursL p (u' ++ y) = true := by
      simpa [occursL, Bool.or_eq_true] using h
    cases h2 with
    | inr h3 =>
      refine ih ha'.2 ?_ h3
      intro x hx hne hpre
      exact hs x (hx.trans (List.suffix_cons c u')) hne hpre
    | inl h3 =>
      rcases le_or_lt p.length (c :: u').length with hle | hlt
      · have hpx := isPrefixL_append_left p (c :: u') y h3 hle
        have hocc := occursL_of_isPrefixL p (c :: u') hpx
        simp [hocc] at ha
      · obtain ⟨hxp, _⟩ := isPrefixL_append_split p (c :: u') y h3 hlt.le
        have hlen := hs (c :: u') (List.suffix_refl _) (by simp) hxp
        exact absurd hlen (by omega)

theorem prefix_transfer (p q u : List Char) (hr : ReentryOk p u) :
    ∀ fuel s j, s.length ≤ fuel → 1 ≤ j → j < p.length →
      isPrefixL (p.drop j) (replaceScan q u fuel s) = true → isPrefixL (p.drop j) s = true := by
  intro fuel
  induction fuel with
  | zero =>
    intro s j hf hj1 hj2 h
    cases s with
    | nil => simpa [replaceScan] using h
    | cons c t => simp at hf
  | succ fuel ih =>
    intro s j hf hj1 hj2 h
    cases s with
    | nil => simpa [replaceScan] using h
    | cons c t =>
      by_cases hm : isPrefixL q (c :: t) = true
      · rw [replaceScan, if_pos hm] at h
        rcases le_or_lt (p.drop j).length u.length with hle | hlt
        · have hpu := isPrefixL_append_left _ u _ h hle
          have hcon := (hr j hj1 hj2).1
          rw [hpu] at hcon
          exact Bool.noConfusion hcon
        · obtain ⟨h1, _⟩ := isPrefixL_append_split _ u _ h hlt.le
          have hcon := (hr j hj1 hj2).2
          rw [h1] at hcon
          exact Bool.noConfusion hcon
      · have hm' : isPrefixL q (c :: t) = false := Bool.eq_false_iff.mpr hm
        rw [replaceScan, if_neg (by simp [hm'])] at h
        have hd : p.drop j = p.get ⟨j, hj2⟩ :: p.drop (j + 1) := by
          rw [List.drop_eq_getElem_cons hj2]
          rfl
        rw [hd] at h ⊢
        simp only [isPrefixL] at h ⊢
        by_cases hac : p.get ⟨j, hj2⟩ = c
        · rw [if_pos hac] at h ⊢
          rcases Nat.lt_or_ge (j + 1) p.length with hj3 | hj3
          · exact ih t (j + 1) (by simp at hf; omega) (by omega) hj3 h
          · have hnil : p.drop (j + 1) = [] := List.drop_eq_nil_of_le hj3
            rw [hnil]
            rfl
        · rw [if_neg hac] at h
          exact Bool.noConfusion h

theorem replaceScan_removes (p u : List Char) (hp : p ≠ [])
    (ha : occursL p u = false) (hs : SuffixOk p u) (hr : ReentryOk p u) :
    ∀ fuel s, s.length ≤ fuel → occursL p (replaceScan p u fuel s) = false := by
  have hplen : 1 ≤ p.length := List.length_pos.mpr hp
  intro fuel
  induction fuel with
  | zero =>
    intro s hf
    cases s with
    | nil => simpa [replaceScan] using occursL_nil_of_ne p hp
    | cons c t => simp at hf
  | succ fuel ih =>
    intro s hf
    cases s with
    | nil => simpa [replaceScan] using occursL_nil_of_ne p hp
    | cons c t =>
      by_cases hm : isPrefixL p (c :: t) = true
      · rw [replaceScan, if_pos hm]
        cases hv : occursL p (u ++ replaceScan p u fuel ((c :: t).drop p.length)) with
        | false => rfl
        | true =>
          have h2 := occursL_append_of_safe p u _ ha hs hv
          have h3 := ih ((c :: t).drop p.length)
            (by rw [List.length_drop]; simp at hf; simp; omega)
          rw [h2] at h3
          exact Bool.noConfusion h3
      · have hm' : isPrefixL p (c :: t) = false := Bool.eq_false_iff.mpr hm
        rw [replaceScan, if_neg (by simp [hm'])]
        have ht : occursL p (replaceScan p u fuel t) = false :=
          ih t (by simp at hf; omega)
        have hpre : isPrefixL p (c :: replaceScan p u fuel t) = false := by
          cases hv : isPrefixL p (c :: replaceScan p u fuel t) with
          | false => rfl
          | true =>
            cases hp2 : p with
            | nil => exact absurd hp2 hp
            | cons a p' =>
              rw [hp2] at hv
              simp only [isPrefixL] at hv
              by_cases hac : a = c
              · rw [if_pos hac] at hv
                cases hp' : p' with
                | nil =>
                  refine absurd ?_ hm
                  rw [hp2, hp']
                  simp [isPrefixL, hac]
                | cons b p'' =>
                  have hj2 : 1 < p.length := by
                    rw [hp2, hp']
                    simp
                  have hv' : isPrefixL (p.drop 1) (replaceScan p u fuel t) = true := by
                    rw [hp2]
                    simpa [hp'] using hv
                  have htr := prefix_transfer p p u hr fuel t 1
                    (by simp at hf; omega) le_rfl hj2 hv'
                  refine absurd ?_ hm
                  rw [hp2]
                  simp only [isPrefixL]
                  rw [if_pos hac]
                  rw [hp2] at htr
                  simpa using htr
              · rw [if_neg hac] at hv
                exact Bool.noConfusion hv
        simp [occursL, hpre, ht]

theorem replaceScan_preserves (p q u : List Char) (hp : p ≠ []) (hq : q ≠ [])
    (ha : occursL p u = false) (hs : SuffixOk p u) (hr : ReentryOk p u) :
    ∀ fuel s, s.length ≤ fuel → occursL p s = false →
      occursL p (replaceScan q u fuel s) = false := by
  have hqlen : 1 ≤ q.length := List.length_pos.mpr hq
  intro fuel
  induction fuel with
  | zero =>
    intro s hf h0
    cases s with
    | nil => simpa [replaceScan] using occursL_nil_of_ne p hp
    | cons c t => simp at hf
  | succ fuel ih =>
    intro s hf h0
    cases s with
    | nil => simpa [replaceScan] using occursL_nil_of_ne p hp
    | cons c t =>
      have h0' : isPrefixL p (c :: t) = false ∧ occursL p t = false := by
        simpa [occursL, Bool.or_eq_false_iff] using h0
      by_cases hm : isPrefixL q (c :: t) = true
      · rw [replaceScan, if_pos hm]
        have hz : occursL p ((c :: t).drop q.length) = false :=
          occursL_drop_of_not p (c :: t) q.length h0
        cases hv : occursL p (u ++ replaceScan q u fuel ((c :: t).drop q.length)) with
        | false => rfl
        | true =>
          have h2 := occursL_append_of_safe p u _ ha hs hv
          have h3 := ih ((c :: t).drop q.length)
            (by rw [List.length_drop]; simp at hf; simp; omega) hz
          rw [h2] at h3
          exact Bool.noConfusion h3
      · have hm' : isPrefixL q (c :: t) = false := Bool.eq_false_iff.mpr hm
        rw [replaceScan, if_neg (by simp [hm'])]
        have ht : occursL p (replaceScan q u fuel t) = false :=
          ih t (by simp at hf; omega) h0'.2
        have hpre : isPrefixL p (c :: replaceScan q u fuel t) = false := by
          cases hv : isPrefixL p (c :: replaceScan q u fuel t) with
          | false => rfl
          | true =>
            cases hp2 : p with
            | nil => exact absurd hp2 hp
            | cons a p' =>
              rw [hp2] at hv
              simp only [isPrefixL] at hv
              by_cases hac : a = c
              · rw [if_pos hac] at hv
                cases hp' : p' with
                | nil =>
                  have : isPrefixL p (c :: t) = true := by
                    rw [hp2, hp']
                    simp [isPrefixL, hac]
                  rw [this] at h0'
                  exact Bool.noConfusion h0'.1
                | cons b p'' =>
                  have hj2 : 1 < p.length := by
                    rw [hp2, hp']
                    simp
                  have hv' : isPrefixL (p.drop 1) (replaceScan q u fuel t) = true := by
                    rw [hp2]
                    simpa [hp'] using hv
                  have htr := prefix_transfer p q u hr fuel t 1
                    (by simp at hf; omega) le_rfl hj2 hv'
                  have : isPrefixL p (c :: t) = true := by
                    rw [hp2]
                    simp only [isPrefixL]
                    rw [if_pos hac]
                    rw [hp2] at htr
                    simpa using htr
                  rw [this] at h0'
                  exact Bool.noConfusion h0'.1
              · rw [if_neg hac] at hv
                exact Bool.noConfusion hv
        simp [occursL, hpre, ht]

theorem safeReplL_spec (p u : List Char) (h : safeReplL p u = true) :
    occursL p u = false ∧ SuffixOk p u ∧ ReentryOk p u := by
  have h3 : ((!(occursL p u)) = true ∧ properSuffixOkL p u = true) ∧ noReentryL p u = true := by
    simpa [safeReplL, Bool.and_eq_true] using h
  refine ⟨by simpa using h3.1.1, ?_, ?_⟩
  · intro x hx hne hpre
    have hall := h3.1.2
    rw [properSuffixOkL, List.all_eq_true] at hall
    have hx2 := hall x ((List.mem_tails x u).mpr hx)
    simp only [Bool.or_eq_true, Bool.not_eq_true, beq_iff_eq, List.isEmpty_eq_true] at hx2
    rcases hx2 with (hx2 | hx2) | hx2
    · exact absurd hx2 hne
    · rw [hpre] at hx2
      exact Bool.noConfusion hx2
    · exact hx2
  · intro j hj1 hj2
    have hall := h3.2
    rw [noReentryL, List.all_eq_true] at hall
    have hj := hall j (List.mem_range.mpr hj2)
    simp only [Bool.or_eq_true, Bool.and_eq_true, Bool.not_eq_true', beq_iff_eq] at hj
    rcases hj with hj | hj
    · omega
    · exact hj

theorem fenceFreeL_drop (s : List Char) (n : ℕ) (h : fenceFreeL s = true) :
    fenceFreeL (s.drop n) = true := by
  rw [fenceFreeL, List.all_eq_true] at h ⊢
  intro c hc
  exact h c (List.drop_subset n s hc)

theorem fenceFreeL_replaceScan (q u : List Char) :
    ∀ fuel s, fenceFreeL s = true → fenceFreeL u = true →
      fenceFreeL (replaceScan q u fuel s) = true := by
  intro fuel
  induction fuel with
  | zero =>
    intro s hsf huf
    cases s with
    | nil => simp [replaceScan, fenceFreeL]
    | cons c t => simpa [replaceScan] using hsf
  | succ fuel ih =>
    intro s hsf huf
    cases s with
    | nil => simp [replaceScan, fenceFreeL]
    | cons c t =>
      have hsf' : decide (c ≠ fenceChar) = true ∧ fenceFreeL t = true := by
        simpa [fenceFreeL, List.all_cons, Bool.and_eq_true] using hsf
      by_cases hm : isPrefixL q (c :: t) = true
      · rw [replaceScan, if_pos hm]
        rw [fenceFreeL, List.all_append, Bool.and_eq_true]
        exact ⟨huf, ih ((c :: t).drop q.length) (fenceFreeL_drop (c :: t) q.length hsf) huf⟩
      · have hm' : isPrefixL q (c :: t) = false := Bool.eq_false_iff.mpr hm
        rw [replaceScan, if_neg (by simp [hm'])]
        rw [fenceFreeL, List.all_cons, Bool.and_eq_true]
        exact ⟨hsf'.1, ih t hsf'.2 huf⟩

theorem fenceScan_id : ∀ (fuel : ℕ) (s : List Char), fenceFreeL s = true →
    fenceScan fuel s = s := by
  intro fuel
  induction fuel with
  | zero =>
    intro s h
    cases s with
    | nil => rfl
    | cons c t => rfl
  | succ fuel ih =>
    intro s h
    cases s with
    | nil => rfl
    | cons c t =>
      have h' : decide (c ≠ fenceChar) = true ∧ fenceFreeL t = true := by
        simpa [fenceFreeL, List.all_cons, Bool.and_eq_true] using h
      have hc : c ≠ fenceChar := of_decide_eq_true h'.1
      rw [fenceScan, if_neg (fun hcond => hc hcond.1)]
      rw [ih t h'.2]

theorem replaceAllL_removes (p u s : List Char) (hp : p ≠ [])
    (hsafe : safeReplL p u = true) : occursL p (replaceAllL s p u) = false := by
  obtain ⟨ha, hs, hr⟩ := safeReplL_spec p u hsafe
  exact replaceScan_removes p u hp ha hs hr s.length s le_rfl

theorem replaceAllL_preserves (p q u s : List Char) (hp : p ≠ []) (hq : q ≠ [])
    (hsafe : safeReplL p u = true) (h : occursL p s = false) :
    occursL p (replaceAllL s q u) = false := by
  obtain ⟨ha, hs, hr⟩ := safeReplL_spec p u hsafe
  exact replaceScan_preserves p q u hp hq ha hs hr s.length s le_rfl h

theorem fenceFreeL_replaceAllL (q u s : List Char) (hsf : fenceFreeL s = true)
    (huf : fenceFreeL u = true) : fenceFreeL (replaceAllL s q u) = true :=
  fenceFreeL_replaceScan q u s.length s hsf huf

theorem stripFencesL_id (s : List Char) (h : fenceFreeL s = true) : stripFencesL s = s :=
  fenceScan_id s.length s h

/-- C6 counterexample: the claim concludes that the finished artifact of a
completed job contains zero occurrences of any slot token.  Placeholder
substitution runs before code-fence stripping, and stripping deletes runs
of three or more backquotes; a provider body whose token is interrupted by
such a fence run contains no token at substitution time, but the stripping
step then splices the characters into a full token.  The job completes
with status done and its artifact contains one occurrence of
IMAGE_PLACEHOLDER_LOGO. -/
theorem c6_counterexample :
    (doWebsiteGeneration (some { coinName := some "C", colorPalette := some "red", projectDesc := some "d" }) (Except.ok "IMA```GE_PLACEHOLDER_LOGO") (Except.ok "AAAA") (Except.ok "BBBB") (Except.ok ())).status = JobStatus.done ∧
      occursS IMAGE_PLACEHOLDER_LOGO
        ((doWebsiteGeneration (some { coinName := some "C", colorPalette := some "red", projectDesc := some "d" }) (Except.ok "IMA```GE_PLACEHOLDER_LOGO") (Except.ok "AAAA") (Except.ok "BBBB") (Except.ok ())).code.getD "") = true := by
  constructor
  · decide
  · decide

/-- C6 amended: each slot token is substituted globally (every occurrence,
not only the first), and the completed artifact contains zero occurrences
of either token provided the substituted data URIs cannot recreate or
extend a token occurrence (safeReplS side conditions) and the document
carries no backquote characters, so that the subsequent code-fence
stripping cannot splice a token together (see the counterexample for why
these provisos are necessary). -/
theorem c6_amended_substitution_complete (ui : UserInputs) (body : String)
    (logoRes bgRes : Except Unit String)
    (h1 : truthy ui.coinName = true) (h2 : truthy ui.colorPalette = true)
    (hb : fenceFreeS (jsTrimS body) = true)
    (hu1 : fenceFreeS (imageAsset logoRes) = true)
    (hu2 : fenceFreeS (imageAsset bgRes) = true)
    (hs1 : safeReplS IMAGE_PLACEHOLDER_LOGO (imageAsset logoRes) = true)
    (hs2 : safeReplS IMAGE_PLACEHOLDER_BG (imageAsset bgRes) = true)
    (hs12 : safeReplS IMAGE_PLACEHOLDER_LOGO (imageAsset bgRes) = true) :
    (doWebsiteGeneration (some ui) (Except.ok body) logoRes bgRes (Except.ok ())).status =
        JobStatus.done ∧
      ∃ art,
        (doWebsiteGeneration (some ui) (Except.ok body) logoRes bgRes (Except.ok ())).code =
          some art ∧
        occursS IMAGE_PLACEHOLDER_LOGO art = false ∧
        occursS IMAGE_PLACEHOLDER_BG art = false := by
  have hL : IMAGE_PLACEHOLDER_LOGO.data ≠ [] := by decide
  have hB : IMAGE_PLACEHOLDER_BG.data ≠ [] := by decide
  have hff : fenceFreeL (replaceAllL
      (replaceAllL (jsTrimS body).data IMAGE_PLACEHOLDER_LOGO.data (imageAsset logoRes).data)
      IMAGE_PLACEHOLDER_BG.data (imageAsset bgRes).data) = true :=
    fenceFreeL_replaceAllL _ _ _
      (fenceFreeL_replaceAllL _ _ _ hb hu1) hu2
  have hid := stripFencesL_id _ hff
  have hL1 : occursL IMAGE_PLACEHOLDER_LOGO.data
      (replaceAllL (jsTrimS body).data IMAGE_PLACEHOLDER_LOGO.data
        (imageAsset logoRes).data) = false :=
    replaceAllL_removes _ _ _ hL hs1
  have hL2 : occursL IMAGE_PLACEHOLDER_LOGO.data (replaceAllL
      (replaceAllL (jsTrimS body).data IMAGE_PLACEHOLDER_LOGO.data (imageAsset logoRes).data)
      IMAGE_PLACEHOLDER_BG.data (imageAsset bgRes).data) = false :=
    replaceAllL_preserves _ _ _ _ hL hB hs12 hL1
  have hB2 : occursL IMAGE_PLACEHOLDER_BG.data (replaceAllL
      (replaceAllL (jsTrimS body).data IMAGE_PLACEHOLDER_LOGO.data (imageAsset logoRes).data)
      IMAGE_PLACEHOLDER_BG.data (imageAsset bgRes).data) = false :=
    replaceAllL_removes _ _ _ hB hs2
  refine ⟨by simp [doWebsiteGeneration, inputsInvalid_eq_false ui h1 h2, setProgress, initialJob],
    stripFencesS (replaceAllS (replaceAllS (jsTrimS body) IMAGE_PLACEHOLDER_LOGO
      (imageAsset logoRes)) IMAGE_PLACEHOLDER_BG (imageAsset bgRes)),
    by simp [doWebsiteGeneration, inputsInvalid_eq_false ui h1 h2, setProgress, initialJob],
    ?_, ?_⟩
  · show occursL IMAGE_PLACEHOLDER_LOGO.data (stripFencesL (replaceAllL
      (replaceAllL (jsTrimS body).data IMAGE_PLACEHOLDER_LOGO.data (imageAsset logoRes).data)
      IMAGE_PLACEHOLDER_BG.data (imageAsset bgRes).data)) = false
    rw [hid]
    exact hL2
  · show occursL IMAGE_PLACEHOLDER_BG.data (stripFencesL (replaceAllL
      (replaceAllL (jsTrimS body).data IMAGE_PLACEHOLDER_LOGO.data (imageAsset logoRes).data)
      IMAGE_PLACEHOLDER_BG.data (imageAsset bgRes).data)) = false
    rw [hid]
    exact hB2

theorem c6_amended_substitution_complete_witness :
    truthy exUI.coinName = true ∧ truthy exUI.colorPalette = true ∧
      fenceFreeS (jsTrimS exBody) = true ∧
      fenceFreeS (imageAsset (Except.ok "AAAA")) = true ∧
      fenceFreeS (imageAsset (Except.ok "BBBB")) = true ∧
      safeReplS IMAGE_PLACEHOLDER_LOGO (imageAsset (Except.ok "AAAA")) = true ∧
      safeReplS IMAGE_PLACEHOLDER_BG (imageAsset (Except.ok "BBBB")) = true ∧
      safeReplS IMAGE_PLACEHOLDER_LOGO (imageAsset (Except.ok "BBBB")) = true ∧
      ((doWebsiteGeneration (some exUI) (Except.ok exBody) (Except.ok "AAAA")
          (Except.ok "BBBB") (Except.ok ())).status = JobStatus.done ∧
        ∃ art,
          (doWebsiteGeneration (some exUI) (Except.ok exBody) (Except.ok "AAAA")
            (Except.ok "BBBB") (Except.ok ())).code = some art ∧
          occursS IMAGE_PLACEHOLDER_LOGO art = false ∧
          occursS IMAGE_PLACEHOLDER_BG art = false) :=
  ⟨by decide, by decide, by decide, by decide, by decide, by decide, by decide, by decide,
    c6_amended_substitution_complete exUI exBody (Except.ok "AAAA") (Except.ok "BBBB")
      (by decide) (by decide) (by decide) (by decide) (by decide) (by decide) (by decide)
      (by decide)⟩

end KasperBuilder
